import Mathlib

/-!
Shallow embedding of `extract_frames.py` (face-vid repository): the face-region
consensus tracker, crop-and-mask transformer, flow derivation and output
sampler, together with theorems settling the specification claims.

Conventions of the embedding:
* Python 2 integers are modelled as `ℕ` where the source values are
  non-negative (detector rectangles, pixel coordinates, pixel values) and as
  `ℤ` where sign matters (CLI `max_frame_count`); Python 2 `/` on positive
  integers is `Nat` division, on floats it is exact `ℚ` division.
* `sys.exit` aborts the program; aborting computations return `Except`.
* numpy `uint8` pixel values are `ℕ` with wraparound `% 256` where numpy
  would wrap, and `Nat.land` for `np.bitwise_and`.
-/

namespace FaceVid

instance {ε α : Type} [DecidableEq ε] [DecidableEq α] : DecidableEq (Except ε α) := fun
  | Except.error a, Except.error b =>
      if h : a = b then Decidable.isTrue (by rw [h])
      else Decidable.isFalse (by intro hc; injection hc; exact h (by assumption))
  | Except.error _, Except.ok _ => Decidable.isFalse (by intro hc; exact Except.noConfusion hc)
  | Except.ok _, Except.error _ => Decidable.isFalse (by intro hc; exact Except.noConfusion hc)
  | Except.ok a, Except.ok b =>
      if h : a = b then Decidable.isTrue (by rw [h])
      else Decidable.isFalse (by intro hc; injection hc; exact h (by assumption))

/-- A detector candidate rectangle `(x, y, w, h)` as returned by
`detectMultiScale` (all components non-negative). -/
structure Rect where
  x : ℕ
  y : ℕ
  w : ℕ
  h : ℕ
deriving DecidableEq, Repr

/-- A region cluster dictionary
`{minX, minY, maxWidth, maxHeight, count}` as built by `remember_face`. -/
structure Cluster where
  minX : ℕ
  minY : ℕ
  maxWidth : ℕ
  maxHeight : ℕ
  count : ℕ
deriving DecidableEq, Repr

/-- Source `point_in_rect` (extract_frames.py lines 93-96): the center point lies
strictly inside the cluster's envelope. -/
def point_in_rect (px py : ℕ) (rect : Cluster) : Bool :=
  decide (px > rect.minX) && decide (px < rect.minX + rect.maxWidth) &&
  decide (py > rect.minY) && decide (py < rect.minY + rect.maxHeight)

/-- The matched branch of `remember_face` (lines 117-123): enlarge the
envelope to componentwise min/max and increment the count. -/
def mergedCluster (head : Cluster) (face : Rect) : Cluster :=
  { minX := min head.minX face.x
    minY := min head.minY face.y
    maxWidth := max head.maxWidth face.w
    maxHeight := max head.maxHeight face.h
    count := head.count + 1 }

/-- Source `remember_face` (lines 99-125): fold one detected rectangle into the
cluster list.  A fresh cluster is created with `count = 0`; a matching
cluster (the first whose envelope strictly contains the rectangle's center)
is enlarged and its count incremented. -/
def remember_face (face : Rect) : List Cluster → List Cluster
  | [] =>
      [{ minX := face.x, minY := face.y, maxWidth := face.w,
         maxHeight := face.h, count := 0 }]
  | head :: tail =>
      -- Python 2 `/` on non-negative ints is floor division.
      let cx := face.x + face.w / 2
      let cy := face.y + face.h / 2
      if point_in_rect cx cy head then
        mergedCluster head face :: tail
      else
        head :: remember_face face tail

/-- Source `detect_face` (lines 23-35): the external detector's candidates for one
frame; `sys.exit()` (modelled as `Except.error ()`) when there are none. -/
def detect_face (faces : List Rect) : Except Unit (List Rect) :=
  if faces = [] then Except.error () else Except.ok faces

/-- The detection loop of `face_pass` (lines 128-137), with the detector
abstracted as the per-frame candidate list `dets`: frame `i` is visited iff
`i % 10 = 0`, and every candidate of a visited frame is folded into the
cluster list by `remember_face`. -/
def face_pass_track : List (List Rect) → ℕ → List Cluster → Except Unit (List Cluster)
  | [], _, known => Except.ok known
  | d :: rest, i, known =>
      if i % 10 ≠ 0 then
        face_pass_track rest (i + 1) known
      else
        match detect_face d with
        | Except.error e => Except.error e
        | Except.ok faces =>
            face_pass_track rest (i + 1)
              (faces.foldl (fun k f => remember_face f k) known)

/-- The tracking portion of `face_pass` started at frame index 0 with no
known faces. -/
def face_pass (dets : List (List Rect)) : Except Unit (List Cluster) :=
  face_pass_track dets 0 []

/-- Python 2 `max(head :: tail, key = count)`: keep the current maximum,
replacing it only when a later element's key is strictly greater (so the
first element attaining the maximum wins). -/
def pythonMaxByCount (head : Cluster) (tail : List Cluster) : Cluster :=
  tail.foldl (fun acc c => if c.count > acc.count then c else acc) head

/-- Source `most_significant_face` (line 140): `max(known_faces, key=count)`,
undefined (`none`) on an empty cluster list. -/
def most_significant_face : List Cluster → Option Cluster
  | [] => none
  | head :: tail => some (pythonMaxByCount head tail)

/-- Detector transcript of the C1 scenario: a 50-frame clip whose visited
frames (0,10,20,30,40) each yield the single rectangle (10,10,40,40). -/
def dets50 : List (List Rect) :=
  (List.range 50).map (fun i =>
    if i % 10 = 0 then [{ x := 10, y := 10, w := 40, h := 40 }] else [])

/-- Detector transcript of an 11-frame clip: visited frame 0 yields one
candidate, visited frame 10 yields none (frames 1-9 are never visited). -/
def dets11 : List (List Rect) :=
  [{ x := 10, y := 10, w := 40, h := 40 }] :: List.replicate 10 []

/-- Folding a whole sequence of rectangles into one cluster, each step being
the matched branch of `remember_face`. -/
def mergeAll (c : Cluster) (rs : List Rect) : Cluster :=
  rs.foldl mergedCluster c

/-- C1 (counterexample). On the 50-frame scenario with the single rectangle
(10,10,40,40) detected on frames 0,10,20,30,40, the tracker does NOT end
with the cluster `{10,10,40,40, count := 5}` the claim demands. -/
theorem c1_count_is_not_five :
    face_pass dets50 ≠ Except.ok [⟨10, 10, 40, 40, 5⟩] := by decide

/-- C1 (amended). On the 50-frame scenario the tracker ends with exactly one
cluster, the envelope (10,10,40,40), with `count = 4`: the first detection
creates the cluster with `count = 0` and only the four later detections
increment it. -/
theorem c1_single_cluster_count_four :
    face_pass dets50 = Except.ok [⟨10, 10, 40, 40, 4⟩] := by decide

/-- Error characterization of the tracking loop: it aborts iff some visited
frame (index `≡ 0 [MOD 10]` counted from the start index) has an empty
candidate list. -/
theorem face_pass_track_error_iff (dets : List (List Rect)) :
    ∀ (i : ℕ) (known : List Cluster),
      face_pass_track dets i known = Except.error () ↔
        ∃ j, (i + j) % 10 = 0 ∧ dets[j]? = some ([] : List Rect) := by
  induction dets with
  | nil => intro i known; simp [face_pass_track]
  | cons d rest ih =>
      intro i known
      by_cases hmod : i % 10 = 0
      · by_cases hd : d = []
        · subst hd
          have hL : face_pass_track ([] :: rest) i known = Except.error () := by
            simp [face_pass_track, detect_face, hmod]
          rw [hL]
          exact iff_of_true rfl ⟨0, by simpa using hmod, by simp⟩
        · have hL : face_pass_track (d :: rest) i known =
              face_pass_track rest (i + 1)
                (d.foldl (fun k f => remember_face f k) known) := by
            simp [face_pass_track, detect_face, hmod, hd]
          rw [hL, ih]
          constructor
          · rintro ⟨j, hj, hget⟩
            exact ⟨j + 1, by omega, by simpa using hget⟩
          · rintro ⟨j, hj, hget⟩
            cases j with
            | zero =>
                exfalso
                apply hd
                simpa using hget
            | succ k => exact ⟨k, by omega, by simpa using hget⟩
      · have hL : face_pass_track (d :: rest) i known =
            face_pass_track rest (i + 1) known := by
          simp [face_pass_track, hmod]
        rw [hL, ih]
        constructor
        · rintro ⟨j, hj, hget⟩
          exact ⟨j + 1, by omega, by simpa using hget⟩
        · rintro ⟨j, hj, hget⟩
          cases j with
          | zero => exact absurd (by simpa using hj) hmod
          | succ k => exact ⟨k, by omega, by simpa using hget⟩

/-- C2 (counterexample). Visited frame 0 yields a candidate, yet the
tracker still aborts because visited frame 10 yields none: finding at least
one candidate somewhere does not prevent the abort. -/
theorem c2_abort_despite_candidate :
    face_pass dets11 = Except.error () ∧
      dets11[0]? = some [⟨10, 10, 40, 40⟩] := by decide

/-- C2 (amended). The tracker aborts iff SOME visited frame (index divisible
by 10) yields zero candidates; equivalently it completes exactly when every
visited frame yields at least one candidate. -/
theorem c2_abort_iff_some_visited_frame_empty (dets : List (List Rect)) :
    face_pass dets = Except.error () ↔
      ∃ j, j % 10 = 0 ∧ dets[j]? = some ([] : List Rect) := by
  simpa using face_pass_track_error_iff dets 0 []

/-- The Python `max(·, key count)` fold returns an element whose count bounds
every element's count, occurring after a prefix of strictly smaller counts
(i.e. the first element attaining the maximum). -/
theorem pythonMaxByCount_spec (tail : List Cluster) :
    ∀ head : Cluster,
      (∀ c ∈ head :: tail, c.count ≤ (pythonMaxByCount head tail).count) ∧
      ∃ l1 l2, head :: tail = l1 ++ pythonMaxByCount head tail :: l2 ∧
        ∀ c ∈ l1, c.count < (pythonMaxByCount head tail).count := by
  induction tail with
  | nil =>
      intro head
      refine ⟨?_, [], [], rfl, by simp⟩
      intro c hc
      have : c = head := by simpa using hc
      simp [this, pythonMaxByCount]
  | cons y ys ih =>
      intro head
      by_cases hc : y.count > head.count
      · have hstep : pythonMaxByCount head (y :: ys) = pythonMaxByCount y ys := by
          show pythonMaxByCount (if y.count > head.count then y else head) ys =
            pythonMaxByCount y ys
          rw [if_pos hc]
        obtain ⟨hmax, l1, l2, hsplit, hpre⟩ := ih y
        rw [hstep]
        refine ⟨?_, head :: l1, l2, ?_, ?_⟩
        · intro c hcm
          rcases List.mem_cons.mp hcm with h1 | h2
          · subst h1
            exact le_of_lt (lt_of_lt_of_le hc (hmax y (List.mem_cons_self y ys)))
          · exact hmax c h2
        · rw [List.cons_append, ← hsplit]
        · intro c hcm
          rcases List.mem_cons.mp hcm with h1 | h2
          · subst h1
            exact lt_of_lt_of_le hc (hmax y (List.mem_cons_self y ys))
          · exact hpre c h2
      · have hstep : pythonMaxByCount head (y :: ys) = pythonMaxByCount head ys := by
          show pythonMaxByCount (if y.count > head.count then y else head) ys =
            pythonMaxByCount head ys
          rw [if_neg hc]
        obtain ⟨hmax, l1, l2, hsplit, hpre⟩ := ih head
        rw [hstep]
        have hy : y.count ≤ head.count := le_of_not_lt hc
        have hhead : head.count ≤ (pythonMaxByCount head ys).count :=
          hmax head (List.mem_cons_self head ys)
        refine ⟨?_, ?_⟩
        · intro c hcm
          rcases List.mem_cons.mp hcm with h1 | h2
          · subst h1; exact hhead
          · rcases List.mem_cons.mp h2 with h3 | h4
            · subst h3; exact le_trans hy hhead
            · exact hmax c (List.mem_cons_of_mem head h4)
        · cases l1 with
          | nil =>
              rw [List.nil_append] at hsplit
              injection hsplit with hM hl2
              refine ⟨[], y :: ys, ?_, by simp⟩
              rw [List.nil_append, ← hM]
          | cons a l1t =>
              rw [List.cons_append] at hsplit
              injection hsplit with ha hys
              have hheadpre : head.count < (pythonMaxByCount head ys).count := by
                have := hpre a (List.mem_cons_self a l1t)
                rwa [← ha] at this
              refine ⟨head :: y :: l1t, l2, ?_, ?_⟩
              · rw [List.cons_append, List.cons_append, ← hys]
              · intro c hcm
                rcases List.mem_cons.mp hcm with h1 | h2
                · subst h1; exact hheadpre
                · rcases List.mem_cons.mp h2 with h3 | h4
                  · subst h3; exact lt_of_le_of_lt hy hheadpre
                  · have := hpre c (List.mem_cons_of_mem a h4)
                    exact this

/-- C7. The canonical region over a non-empty final cluster list is a
cluster of maximal count, preceded in creation order only by clusters of
strictly smaller count (so ties go to the first-created maximal cluster);
concretely, over counts [3, 5, 5] the second cluster is selected. -/
theorem most_significant_face_selects_first_max (head : Cluster) (tail : List Cluster) :
    ∃ M, most_significant_face (head :: tail) = some M ∧
      (∀ c ∈ head :: tail, c.count ≤ M.count) ∧
      (∃ l1 l2, head :: tail = l1 ++ M :: l2 ∧ ∀ c ∈ l1, c.count < M.count) ∧
      most_significant_face [⟨0, 0, 0, 0, 3⟩, ⟨1, 1, 1, 1, 5⟩, ⟨2, 2, 2, 2, 5⟩] =
        some ⟨1, 1, 1, 1, 5⟩ := by
  obtain ⟨hmax, l1, l2, hsplit, hpre⟩ := pythonMaxByCount_spec tail head
  exact ⟨pythonMaxByCount head tail, rfl, hmax, ⟨l1, l2, hsplit, hpre⟩, by decide⟩

/-- C8. Merging any sequence of rectangles into a cluster only moves the
envelope's anchor outward (minX/minY never increase), never shrinks the
envelope dimensions (maxWidth/maxHeight never decrease), and increments the
count by exactly one per merged rectangle. -/
theorem cluster_monotonicity (rs : List Rect) :
    ∀ c : Cluster,
      (mergeAll c rs).minX ≤ c.minX ∧ (mergeAll c rs).minY ≤ c.minY ∧
      c.maxWidth ≤ (mergeAll c rs).maxWidth ∧
      c.maxHeight ≤ (mergeAll c rs).maxHeight ∧
      (mergeAll c rs).count = c.count + rs.length := by
  induction rs with
  | nil => intro c; simp [mergeAll]
  | cons r rest ih =>
      intro c
      have hstep : mergeAll c (r :: rest) = mergeAll (mergedCluster c r) rest := rfl
      obtain ⟨h1, h2, h3, h4, h5⟩ := ih (mergedCluster c r)
      rw [hstep]
      refine ⟨?_, ?_, ?_, ?_, ?_⟩
      · exact le_trans h1 (min_le_left _ _)
      · exact le_trans h2 (min_le_left _ _)
      · exact le_trans (le_max_left _ _) h3
      · exact le_trans (le_max_left _ _) h4
      · rw [h5]; simp [mergedCluster]; omega

/-! ## Flow rescaling (`SCALE_FLOW`, `calculateFlow`, lines 19 and 147-151) -/

/-- A single-channel image: a list of pixel rows. -/
abbrev Frame := List (List ℕ)

/-- Source constant `SCALE_FLOW` (line 19). -/
def SCALE_FLOW : ℕ := 10

/-- Per-pixel behaviour of `cv2.convertScaleAbs(src, dst, alpha, beta)`:
scale, add, take the absolute value, round, and saturate to 8 bits. -/
def convertScaleAbsPix (alpha beta raw : ℚ) : ℕ :=
  min (round |raw * alpha + beta|).toNat 255

/-- Per-pixel rescaling done by `calculateFlow` (lines 149-150) on a raw
displacement value: `convertScaleAbs(flow, None, 128 / SCALE_FLOW, 128)`
where `128 / SCALE_FLOW` is Python 2 integer division. -/
def calculateFlowPix (raw : ℚ) : ℕ :=
  convertScaleAbsPix ((128 / SCALE_FLOW : ℕ) : ℚ) 128 raw

/-- The rescaling formula stated by the spec, for comparison:
`display = clip(raw * scale_factor + 128, 0, 255)`. -/
def specClipFormula (scale_factor raw : ℚ) : ℕ :=
  (min (max (round (raw * scale_factor + 128)) 0) 255).toNat

/-- C3 (counterexample). At raw displacement −11 the stored value is 4 (the
absolute value of −4 saturated), not the 0 the clip formula yields with the
code's actual scale factor `128 / SCALE_FLOW = 12`; and ±10 pixels map to
8 and 248, so they do not span the full 8-bit range. -/
theorem c3_clip_formula_fails :
    calculateFlowPix (-11) = 4 ∧
    specClipFormula ((128 / SCALE_FLOW : ℕ) : ℚ) (-11) = 0 ∧
    calculateFlowPix 10 = 248 ∧ calculateFlowPix (-10) = 8 := by
  norm_num [calculateFlowPix, convertScaleAbsPix, specClipFormula, SCALE_FLOW, round_eq]
  omega

/-- C3 (amended). The scale factor is `128 / SCALE_FLOW = 12` (Python 2
integer division, not 12.8); the stored value agrees with the spec's clip
formula whenever `12·raw + 128` is non-negative (i.e. `raw ≥ -32/3`), and
zero displacement maps exactly to the midpoint 128 (but ±10 pixels map to
8 and 248 rather than spanning the full range, per the counterexample). -/
theorem c3_stored_flow_value (raw : ℚ) (h : -32/3 ≤ raw) :
    calculateFlowPix raw = specClipFormula ((128 / SCALE_FLOW : ℕ) : ℚ) raw ∧
    calculateFlowPix 0 = 128 := by
  have halpha : ((128 / SCALE_FLOW : ℕ) : ℚ) = 12 := by norm_num [SCALE_FLOW]
  constructor
  · unfold calculateFlowPix convertScaleAbsPix specClipFormula
    rw [halpha]
    have hx : 0 ≤ raw * 12 + 128 := by linarith
    rw [abs_of_nonneg hx]
    have hr : 0 ≤ round (raw * 12 + 128) := by
      rw [round_eq]
      have : (0 : ℚ) ≤ raw * 12 + 128 + 1 / 2 := by linarith
      exact Int.le_floor.mpr (by exact_mod_cast this)
    omega
  · norm_num [calculateFlowPix, convertScaleAbsPix, SCALE_FLOW, round_eq]
    omega

/-- Witness for `c3_stored_flow_value` at `raw = 0`. -/
theorem c3_stored_flow_value_witness :
    calculateFlowPix 0 = specClipFormula ((128 / SCALE_FLOW : ℕ) : ℚ) 0 ∧
    calculateFlowPix 0 = 128 :=
  c3_stored_flow_value 0 (by norm_num)

/-! ## Continuous-reference flow pairing (`flow_pass_continuous`, lines 165-167) -/

/-- numpy elementwise addition of two equally sized uint8 images
(values wrap modulo 256). -/
def addWrap (a b : Frame) : Frame :=
  List.zipWith (List.zipWith (fun p q => (p + q) % 256)) a b

/-- The frame pairs handed to `calculateFlow` by `flow_pass_continuous`
(line 166): `zip(framesGray[0] + framesGray, framesGray)`.  In numpy,
`framesGray[0] + framesGray` broadcasts frame 0 over the stacked frame
array and adds elementwise with uint8 wraparound — it does NOT prepend the
first frame.  (An empty input would raise IndexError; the claims concern
non-empty sequences.) -/
def flow_pass_continuous_pairs : List Frame → List (Frame × Frame)
  | [] => []
  | f0 :: rest => List.zip ((f0 :: rest).map (addWrap f0)) (f0 :: rest)

/-- C4 (code evaluated at the failing input). On two identical 1×1 frames of
pixel value 100, `flow_pass_continuous` compares the elementwise sum
`frame0 + frame_i = [[200]]` with `frame_i`, at index 0 as well as index 1 —
not frame 0 with itself and frame i−1 with frame i as its own comment
("always compares with the previous image in the series") requires. -/
theorem c4_continuous_flow_wrong_pairs :
    flow_pass_continuous_pairs [[[100]], [[100]]] =
      [([[200]], [[100]]), ([[200]], [[100]])] ∧
    flow_pass_continuous_pairs [[[100]], [[100]]] ≠
      [([[100]], [[100]]), ([[100]], [[100]])] := by decide

/-! ## Output sampler (`save_to_disk`, lines 170-181) -/

/-- Source `relevant_frames` (lines 172-177): `stride = frame_count / float(max_frame_count)`
when `max_frame_count > 0` (else 1), and
`[int(i) for i in np.arange(0, frame_count, stride)]`; `np.arange` yields
`⌈frame_count / stride⌉` values `0, stride, 2·stride, …` and `int` truncates
(floors, all values being non-negative). -/
def relevant_frames (frame_count : ℕ) (max_frame_count : ℤ) : List ℕ :=
  if 0 < max_frame_count then
    (List.range
        (⌈(frame_count : ℚ) / ((frame_count : ℚ) / (max_frame_count : ℚ))⌉.toNat)).map
      (fun i : ℕ => (⌊(i : ℚ) * ((frame_count : ℚ) / (max_frame_count : ℚ))⌋).toNat)
  else
    List.range frame_count

/-- The frame indices actually written by the loop of `save_to_disk`
(lines 179-181): frame `i` is kept iff `i in relevant_frames`. -/
def save_to_disk_indices (frame_count : ℕ) (max_frame_count : ℤ) : List ℕ :=
  (List.range frame_count).filter
    (fun i => decide (i ∈ relevant_frames frame_count max_frame_count))

/-- With exact arithmetic the arange-based index list is
`[⌊i · n/m⌋ for i in 0..m-1]`, which over naturals is `i·n / m`. -/
theorem relevant_frames_eq (n : ℕ) (m : ℤ) (hn : 1 ≤ n) (hm : 0 < m) :
    relevant_frames n m = (List.range m.toNat).map (fun i => i * n / m.toNat) := by
  unfold relevant_frames
  rw [if_pos hm]
  have hnQ : (0 : ℚ) < (n : ℚ) := by exact_mod_cast hn
  have hn0 : (n : ℚ) ≠ 0 := ne_of_gt hnQ
  have hm0 : (m : ℚ) ≠ 0 := Int.cast_ne_zero.mpr (ne_of_gt hm)
  have hdiv : (n : ℚ) / ((n : ℚ) / (m : ℚ)) = (m : ℚ) := by field_simp
  rw [hdiv, Int.ceil_intCast]
  have hmQ : ((m.toNat : ℕ) : ℚ) = (m : ℚ) := by
    have h1 : ((m.toNat : ℤ) : ℚ) = ((m : ℤ) : ℚ) := by
      rw [Int.toNat_of_nonneg hm.le]
    push_cast at h1 ⊢
    exact h1
  have hfun : (fun i : ℕ => (⌊(i : ℚ) * ((n : ℚ) / (m : ℚ))⌋).toNat) =
      (fun i : ℕ => i * n / m.toNat) := by
    funext i
    have h2 : (i : ℚ) * ((n : ℚ) / (m : ℚ)) =
        ((i * n : ℕ) : ℚ) / ((m.toNat : ℕ) : ℚ) := by
      rw [hmQ]
      push_cast
      ring
    rw [h2, Rat.floor_natCast_div_natCast, ← Int.natCast_div, Int.toNat_natCast]
  rw [hfun]

/-- C5. The sampler: for `max_count ≤ 0` every index `0..n-1` is selected;
for `max_count > 0` the index list is `⌊i · n/m⌋` for `i in 0..m-1`, which is
monotone, strictly increasing when `n/m ≥ 1`, starts at index 0, has exactly
`m` entries, and at most `m` distinct frames are selected; concretely,
`sample(100,10) = [0,10,…,90]`, `sample(5,0) = [0,1,2,3,4]`,
`sample(3,10)` selects frames `[0,1,2]`. -/
theorem save_to_disk_sampler (n : ℕ) (m : ℤ) (hn : 1 ≤ n) :
    (m ≤ 0 → relevant_frames n m = List.range n ∧
      save_to_disk_indices n m = List.range n) ∧
    (0 < m →
      relevant_frames n m = (List.range m.toNat).map (fun i => i * n / m.toNat) ∧
      (∀ i j : ℕ, i ≤ j → i * n / m.toNat ≤ j * n / m.toNat) ∧
      (m.toNat ≤ n → ∀ i j : ℕ, i < j → i * n / m.toNat < j * n / m.toNat) ∧
      (relevant_frames n m).length = m.toNat ∧
      (save_to_disk_indices n m).length ≤ m.toNat) ∧
    0 ∈ relevant_frames n m ∧ 0 ∈ save_to_disk_indices n m ∧
    save_to_disk_indices 100 10 = [0, 10, 20, 30, 40, 50, 60, 70, 80, 90] ∧
    save_to_disk_indices 5 0 = [0, 1, 2, 3, 4] ∧
    save_to_disk_indices 3 10 = [0, 1, 2] := by
  have hmem0 : 0 ∈ relevant_frames n m := by
    by_cases hm : 0 < m
    · rw [relevant_frames_eq n m hn hm]
      have hm' : 0 < m.toNat := by omega
      exact List.mem_map.mpr ⟨0, List.mem_range.mpr hm', by simp⟩
    · unfold relevant_frames
      rw [if_neg hm]
      exact List.mem_range.mpr (by omega)
  refine ⟨?_, ?_, hmem0, ?_, ?_, ?_, ?_⟩
  · intro hm
    have hrel : relevant_frames n m = List.range n := by
      unfold relevant_frames
      rw [if_neg (not_lt.mpr hm)]
    refine ⟨hrel, ?_⟩
    unfold save_to_disk_indices
    rw [hrel, List.filter_eq_self.mpr]
    intro a ha
    simpa using ha
  · intro hm
    have hm' : 0 < m.toNat := by omega
    have hrel := relevant_frames_eq n m hn hm
    refine ⟨hrel, ?_, ?_, ?_, ?_⟩
    · intro i j hij
      exact Nat.div_le_div_right (Nat.mul_le_mul_right n hij)
    · intro hmn i j hij
      have hstep : i * n + m.toNat ≤ j * n := by
        have h1 : (i + 1) * n ≤ j * n := Nat.mul_le_mul_right n hij
        rw [add_mul, one_mul] at h1
        omega
      calc i * n / m.toNat < i * n / m.toNat + 1 := Nat.lt_succ_self _
        _ = (i * n + m.toNat) / m.toNat := (Nat.add_div_right _ hm').symm
        _ ≤ j * n / m.toNat := Nat.div_le_div_right hstep
    · rw [hrel, List.length_map, List.length_range]
    · have hnodup : (save_to_disk_indices n m).Nodup :=
        (List.nodup_range n).filter _
      have hsub : ∀ x ∈ save_to_disk_indices n m, x ∈ relevant_frames n m := by
        intro x hx
        have := (List.mem_filter.mp hx).2
        simpa using this
      have hcard : (save_to_disk_indices n m).length =
          (save_to_disk_indices n m).toFinset.card :=
        (List.toFinset_card_of_nodup hnodup).symm
      have hle : (save_to_disk_indices n m).toFinset.card ≤
          (relevant_frames n m).toFinset.card := by
        apply Finset.card_le_card
        intro x hx
        rw [List.mem_toFinset] at hx ⊢
        exact hsub x hx
      have hded : (relevant_frames n m).toFinset.card ≤ (relevant_frames n m).length := by
        rw [List.card_toFinset]
        exact (relevant_frames n m).dedup_sublist.length_le
      have hlen : (relevant_frames n m).length = m.toNat := by
        rw [hrel, List.length_map, List.length_range]
      omega
  · unfold save_to_disk_indices
    rw [List.mem_filter]
    exact ⟨List.mem_range.mpr (by omega), by simpa using hmem0⟩
  · unfold save_to_disk_indices
    rw [relevant_frames_eq 100 10 (by norm_num) (by norm_num)]
    decide
  · decide
  · unfold save_to_disk_indices
    rw [relevant_frames_eq 3 10 (by norm_num) (by norm_num)]
    decide

/-- Witness for `save_to_disk_sampler` at `n = 5`, `m = 0`. -/
theorem save_to_disk_sampler_witness :
    save_to_disk_indices 5 0 = [0, 1, 2, 3, 4] :=
  (save_to_disk_sampler 5 0 (by norm_num)).2.2.2.2.2.1

/-! ## CLI surface (`main`, lines 184-197) -/

/-- The observable way a run of `main` terminates: the process exit status
and whether a descriptive message was emitted.  Python semantics:
`sys.exit("msg")` exits with status 1 and prints the message, while a bare
`sys.exit()` exits with status 0 and prints nothing. -/
structure ExitResult where
  code : ℕ
  hasMessage : Bool
deriving DecidableEq, Repr

/-- Source `main` (lines 184-197) over its observable inputs: the argument count,
whether the video path is a file, whether the output path is a directory,
and the detector transcript of the (readable) video.  The three argument
checks call `sys.exit(<message>)`; a clip on which `face_pass` aborts ends
in the bare `sys.exit()` inside `detect_face`. -/
def main_result (argc : ℕ) (isFile isDir : Bool) (dets : List (List Rect)) : ExitResult :=
  if argc < 4 then ⟨1, true⟩
  else if !isFile then ⟨1, true⟩
  else if !isDir then ⟨1, true⟩
  else
    match face_pass dets with
    | Except.error _ => ⟨0, false⟩
    | Except.ok _ => ⟨0, false⟩

/-- C6 (counterexample). With valid arguments but a clip on which no visited
frame yields a face, the process terminates with exit status 0 and no
message (Python `sys.exit()` with no argument), contradicting the claimed
non-zero status with a descriptive message for the NoFaceDetected case. -/
theorem c6_noface_exits_zero :
    face_pass [[]] = Except.error () ∧
      main_result 4 true true [[]] = ⟨0, false⟩ := by decide

/-- C6 (amended). Missing arguments, a non-file video path and a
non-directory output path each terminate with exit status 1 and a
descriptive message, but the NoFaceDetected case terminates with exit
status 0 and no message. -/
theorem c6_exit_behavior (argc : ℕ) (isFile isDir : Bool) (dets : List (List Rect)) :
    (argc < 4 → main_result argc isFile isDir dets = ⟨1, true⟩) ∧
    (4 ≤ argc → isFile = false → main_result argc isFile isDir dets = ⟨1, true⟩) ∧
    (4 ≤ argc → isFile = true → isDir = false →
      main_result argc isFile isDir dets = ⟨1, true⟩) ∧
    (4 ≤ argc → isFile = true → isDir = true → face_pass dets = Except.error () →
      main_result argc isFile isDir dets = ⟨0, false⟩) := by
  refine ⟨?_, ?_, ?_, ?_⟩
  · intro h
    simp [main_result, h]
  · intro h hf
    subst hf
    simp [main_result, Nat.not_lt.mpr h]
  · intro h hf hd
    subst hf; subst hd
    simp [main_result, Nat.not_lt.mpr h]
  · intro h hf hd herr
    subst hf; subst hd
    simp [main_result, Nat.not_lt.mpr h, herr]

/-- Witness for `c6_exit_behavior`: each of the four cases discharged at a
concrete input. -/
theorem c6_exit_behavior_witness :
    main_result 2 true true [] = ⟨1, true⟩ ∧
    main_result 4 false true [] = ⟨1, true⟩ ∧
    main_result 4 true false [] = ⟨1, true⟩ ∧
    main_result 4 true true [[]] = ⟨0, false⟩ :=
  ⟨(c6_exit_behavior 2 true true []).1 (by norm_num),
   (c6_exit_behavior 4 false true []).2.1 (by norm_num) rfl,
   (c6_exit_behavior 4 true false []).2.2.1 (by norm_num) rfl rfl,
   (c6_exit_behavior 4 true true [[]]).2.2.2 (by norm_num) rfl rfl (by decide)⟩

/-! ## Crop and mask (`crop_and_mask`, lines 82-91) -/

/-- Python slice `l[a : b]` for non-negative bounds: out-of-range bounds are
clamped to the list's length, never an error. -/
def pySlice {α : Type} (l : List α) (a b : ℕ) : List α :=
  (l.drop a).take (b - a)

/-- The crop step of `crop_and_mask` (line 83):
`frame[minY : minY + maxHeight, minX : minX + maxWidth]`. -/
def crop_frame (frame : Frame) (minX minY maxWidth maxHeight : ℕ) : Frame :=
  (pySlice frame minY (minY + maxHeight)).map
    (fun row => pySlice row minX (minX + maxWidth))

/-- Modelled rasterization of `cv2.ellipse` (external library call, lines
85-89): pixel `(x, y)` is inside the filled ellipse with center
`(int(maxWidth*0.5), int(maxHeight*0.5))` and semi-axes
`(int(maxWidth*0.4), int(maxHeight*0.5))` (so `2·maxWidth/5` and
`maxHeight/2` in integer arithmetic). -/
def in_ellipse (maxWidth maxHeight x y : ℕ) : Bool :=
  let cx : ℤ := (maxWidth / 2 : ℕ)
  let cy : ℤ := (maxHeight / 2 : ℕ)
  let a : ℤ := (2 * maxWidth / 5 : ℕ)
  let b : ℤ := (maxHeight / 2 : ℕ)
  decide (b ^ 2 * ((x : ℤ) - cx) ^ 2 + a ^ 2 * ((y : ℤ) - cy) ^ 2 ≤ a ^ 2 * b ^ 2)

/-- The mask image built by lines 88-89: 255 (white) inside the ellipse,
0 (the `zeros_like` background) outside. -/
def maskVal (maxWidth maxHeight x y : ℕ) : ℕ :=
  if in_ellipse maxWidth maxHeight x y then 255 else 0

/-- The masking step of `crop_and_mask` (lines 88-91):
`np.bitwise_and(cropped_frame, mask)` with the elliptical mask. -/
def apply_mask (maxWidth maxHeight : ℕ) (fr : Frame) : Frame :=
  fr.mapIdx (fun y row => row.mapIdx (fun x p => p &&& maskVal maxWidth maxHeight x y))

/-- Source `crop_and_mask` (lines 82-91): crop to the canonical region, then apply
the elliptical mask. -/
def crop_and_mask (frame : Frame) (minX minY maxWidth maxHeight : ℕ) : Frame :=
  apply_mask maxWidth maxHeight (crop_frame frame minX minY maxWidth maxHeight)

/-- The pixel of `fr` at row `y`, column `x`, when both are in range. -/
def pixel? (fr : Frame) (y x : ℕ) : Option ℕ :=
  fr[y]?.bind (fun row => row[x]?)

/-- C9. Cropping never fails: the region is clamped deterministically to the
frame bounds (a `min` with the frame height/width), so the crop — and the
whole `crop_and_mask` output — is no larger than the source frame. -/
theorem crop_clamped_within_bounds (frame : Frame) (W minX minY maxWidth maxHeight : ℕ)
    (hW : ∀ row ∈ frame, row.length = W) :
    (crop_frame frame minX minY maxWidth maxHeight).length
        = min maxHeight (frame.length - minY) ∧
    (crop_frame frame minX minY maxWidth maxHeight).length ≤ frame.length ∧
    (∀ row ∈ crop_frame frame minX minY maxWidth maxHeight,
        row.length = min maxWidth (W - minX) ∧ row.length ≤ W) ∧
    (crop_and_mask frame minX minY maxWidth maxHeight).length ≤ frame.length ∧
    (∀ row ∈ crop_and_mask frame minX minY maxWidth maxHeight, row.length ≤ W) := by
  have hrow : ∀ row ∈ crop_frame frame minX minY maxWidth maxHeight,
      row.length = min maxWidth (W - minX) ∧ row.length ≤ W := by
    intro row hr
    obtain ⟨r, hrmem, rfl⟩ := List.mem_map.mp hr
    have hrfr : r ∈ frame :=
      List.drop_subset minY frame (List.take_subset _ _ hrmem)
    have hlen : r.length = W := hW r hrfr
    unfold pySlice
    rw [List.length_take, List.length_drop, hlen]
    constructor
    · congr 1
      omega
    · omega
  have hclen : (crop_frame frame minX minY maxWidth maxHeight).length
      = min maxHeight (frame.length - minY) := by
    unfold crop_frame pySlice
    rw [List.length_map, List.length_take, List.length_drop]
    congr 1
    omega
  have hmlen : (crop_and_mask frame minX minY maxWidth maxHeight).length
      = (crop_frame frame minX minY maxWidth maxHeight).length := by
    unfold crop_and_mask apply_mask
    exact List.length_mapIdx
  refine ⟨hclen, by omega, hrow, by omega, ?_⟩
  intro row hr
  unfold crop_and_mask apply_mask at hr
  obtain ⟨i, hi, hrow_eq⟩ := List.exists_of_mem_mapIdx hr
  have hmem : (crop_frame frame minX minY maxWidth maxHeight)[i] ∈
      crop_frame frame minX minY maxWidth maxHeight := List.getElem_mem hi
  have := (hrow _ hmem).2
  rw [← hrow_eq]
  rw [List.length_mapIdx]
  exact this

/-- Witness for `crop_clamped_within_bounds`: a 2×2 frame with a region
extending past both boundaries. -/
theorem crop_clamped_within_bounds_witness :
    (crop_frame [[1, 2], [3, 4]] 1 1 5 7).length
        = min 7 (([[1, 2], [3, 4]] : Frame).length - 1) ∧
    (crop_frame [[1, 2], [3, 4]] 1 1 5 7).length ≤ ([[1, 2], [3, 4]] : Frame).length ∧
    (([4] : List ℕ).length = min 5 (2 - 1) ∧ ([4] : List ℕ).length ≤ 2) ∧
    (crop_and_mask [[1, 2], [3, 4]] 1 1 5 7).length ≤ ([[1, 2], [3, 4]] : Frame).length :=
  ⟨(crop_clamped_within_bounds [[1, 2], [3, 4]] 2 1 1 5 7 (by decide)).1,
   (crop_clamped_within_bounds [[1, 2], [3, 4]] 2 1 1 5 7 (by decide)).2.1,
   (crop_clamped_within_bounds [[1, 2], [3, 4]] 2 1 1 5 7 (by decide)).2.2.1 [4] (by decide),
   (crop_clamped_within_bounds [[1, 2], [3, 4]] 2 1 1 5 7 (by decide)).2.2.2.1⟩

/-- The masking step acts pixelwise: bitwise-AND with the mask value. -/
theorem apply_mask_pixel (maxWidth maxHeight : ℕ) (fr : Frame) (y x : ℕ) :
    pixel? (apply_mask maxWidth maxHeight fr) y x =
      (pixel? fr y x).map (fun p => p &&& maskVal maxWidth maxHeight x y) := by
  unfold pixel? apply_mask
  rw [List.getElem?_mapIdx]
  cases hrow : fr[y]? with
  | none => simp
  | some row => simp [List.getElem?_mapIdx]

/-- C10. The elliptical masking step is idempotent — applying the mask twice
with the identical region equals applying it once — and pixelwise it passes
pixels inside the ellipse through unchanged while zeroing pixels outside. -/
theorem apply_mask_idempotent (maxWidth maxHeight : ℕ) (fr : Frame)
    (hpix : ∀ row ∈ fr, ∀ p ∈ row, p < 256) :
    apply_mask maxWidth maxHeight (apply_mask maxWidth maxHeight fr) =
        apply_mask maxWidth maxHeight fr ∧
    ∀ y x p, pixel? fr y x = some p →
      pixel? (apply_mask maxWidth maxHeight fr) y x =
        some (if in_ellipse maxWidth maxHeight x y then p else 0) := by
  constructor
  · unfold apply_mask
    rw [List.mapIdx_mapIdx]
    apply congrArg (fun f => List.mapIdx f fr)
    funext y row
    simp only [Function.comp_apply]
    rw [List.mapIdx_mapIdx]
    apply congrArg (fun f => List.mapIdx f row)
    funext x p
    simp only [Function.comp_apply]
    rw [Nat.land_assoc]
    congr 1
    exact Nat.and_self _
  · intro y x p hp
    rw [apply_mask_pixel]
    rw [hp]
    have hmem : p < 256 := by
      unfold pixel? at hp
      cases hrow : fr[y]? with
      | none => rw [hrow] at hp; simp at hp
      | some row =>
          rw [hrow] at hp
          simp only [Option.some_bind] at hp
          exact hpix row (List.getElem?_mem hrow) p (List.getElem?_mem hp)
    unfold maskVal
    by_cases he : in_ellipse maxWidth maxHeight x y
    · have h255 : p &&& 255 = p % 256 := Nat.and_pow_two_sub_one_eq_mod p 8
      simp [he, h255, Nat.mod_eq_of_lt hmem]
    · simp [he, Nat.and_zero]

/-- Witness for `apply_mask_idempotent` on a concrete 2×2 frame. -/
theorem apply_mask_idempotent_witness :
    apply_mask 2 2 (apply_mask 2 2 [[1, 2], [3, 4]]) = apply_mask 2 2 [[1, 2], [3, 4]] ∧
    pixel? (apply_mask 2 2 [[1, 2], [3, 4]]) 0 0 =
      some (if in_ellipse 2 2 0 0 then 1 else 0) :=
  ⟨(apply_mask_idempotent 2 2 [[1, 2], [3, 4]] (by decide)).1,
   (apply_mask_idempotent 2 2 [[1, 2], [3, 4]] (by decide)).2 0 0 1 (by decide)⟩

end FaceVid
